import Mathlib

/-!
Verification of the HFBPO modifier-retrieval and combinatorial-bandit core.

The definitions below are a shallow embedding of the Python sources:

* `src/core/rl_agent.py` (`RapoBanditAgent`): the bandit store maps a
  combination key `"place|verb|scenario"` to a Beta belief `(alpha, beta)`.
  Python's `dict` preserves insertion order, so the store is modelled as an
  association list `List (String × Belief)` whose genuinely reachable states
  have distinct keys; `lookup` is dict access (first match).
* Python `float` is modelled as `ℚ` (exact arithmetic; no claim here depends
  on rounding).  The opaque draw `np.random.beta(alpha, beta)` is isolated
  behind an explicit parameter `sample : ℕ → ℚ → ℚ → ℚ` giving the value of
  the i-th draw for the beliefs passed to it, as the spec's design notes
  prescribe for the random source.
* Disk persistence (`save_state`) is modelled by a `flushOk : Bool` input:
  the `try/except` around the file write either succeeds or fails without
  raising; the branch taken is recorded in the returned log.
* Printed diagnostics are modelled by the `UpdateLog` value so that which
  message was emitted is observable in the embedding.
-/

namespace HFBPO

/-- A Beta-distribution belief over one combination's reward, as stored in
  `RapoBanditAgent.combinations` (`{"alpha": a, "beta": b}`). -/
structure Belief where
  alpha : ℚ
  beta : ℚ
deriving DecidableEq, Repr

/-- The bandit store `self.combinations`: an insertion-ordered mapping from
  combination key to belief (Python dict). -/
abbrev Store := List (String × Belief)

/-- Dict membership/access: the belief stored for `key`, if any
  (`self.combinations[key]` / `key in self.combinations`). -/
def lookup : Store → String → Option Belief
  | [], _ => none
  | e :: rest, key => if e.1 == key then some e.2 else lookup rest key

/-- RapoBanditAgent._make_key: the serialized combination key
  `f"{place}|{verb}|{scenario}"`. -/
def make_key (place verb scenario : String) : String :=
  place ++ "|" ++ verb ++ "|" ++ scenario

/-- Python `str.split('|')` on the character list of a string: splits at every
  occurrence of the bar character, keeping empty pieces, and yields one piece
  more than the number of bars.  Structural recursion so that the kernel can
  evaluate it (Lean's `String.splitOn` does not reduce under `decide`). -/
def splitBar : List Char → List (List Char)
  | [] => [[]]
  | c :: rest =>
    match splitBar rest with
    | [] => [[c]]
    | p :: ps => if c = '|' then [] :: p :: ps else (c :: p) :: ps

/-- Python `key.split('|')` as a list of strings. -/
def splitKey (s : String) : List String :=
  (splitBar s.data).map String.mk

/-- RapoBanditAgent._parse_key: split the key on the bar; if that gives
  exactly three parts return them, else return three empty strings. -/
def parse_key (key : String) : String × String × String :=
  let parts := splitKey key
  if parts.length = 3 then (parts.getD 0 "", parts.getD 1 "", parts.getD 2 "")
  else ("", "", "")

/-- What `update_reward` prints, made observable: either the unknown-key
  message, or the updated-values message, together with whether the
  `save_state` flush inside the update raised (its `except` branch ran). -/
inductive UpdateLog where
  | unknownKey (key : String)
  | updated (key : String) (alpha beta : ℚ) (flushFailed : Bool)
deriving DecidableEq, Repr

/-- RapoBanditAgent.update_reward: clamp the reward to `[0, 1]`; if the key is
  not in the store, print the unknown-key message and return without touching
  the store; otherwise add `r` to alpha and `1 - r` to beta, flush
  (`save_state`, which swallows write failures), and print the new values.
  The function itself returns `None` in Python on both paths; the pair
  returned here is the post-state together with the observable log. -/
def update_reward (store : Store) (combination_key : String) (reward : ℚ)
    (flushOk : Bool) : Store × UpdateLog :=
  let r := max 0 (min 1 reward)
  match lookup store combination_key with
  | none => (store, UpdateLog.unknownKey combination_key)
  | some b =>
    (store.map (fun e =>
        if e.1 == combination_key then
          (e.1, Belief.mk (e.2.alpha + r) (e.2.beta + (1 - r)))
        else e),
     UpdateLog.updated combination_key (b.alpha + r) (b.beta + (1 - r)) (!flushOk))

/-- The body of api.py's `/reward` endpoint response model (`RewardResponse`). -/
structure RewardResponse where
  success : Bool
  message : String
deriving DecidableEq, Repr

/-- Outcome of one call to the `/reward` endpoint: either an HTTP error from
  the two validation guards, or the response returned to the HTTP caller
  together with the post-state of the store. -/
inductive EndpointResult where
  | httpError (code : ℕ) (detail : String)
  | ok (resp : RewardResponse) (store : Store)
deriving DecidableEq, Repr

/-- api.py `update_reward` (`POST /reward`): reject an empty key or an
  out-of-range reward with HTTP 400; otherwise call the agent's
  `update_reward` and answer `success=True` with the applied-message
  (`f"보상 {reward} 적용됨: {key}"`, modelled as ASCII text ending in the
  echoed key).  The agent call never raises, so the `except` branch that
  would answer `success=False` is unreachable. -/
def reward_endpoint (store : Store) (combination_key : String) (reward : ℚ)
    (flushOk : Bool) : EndpointResult :=
  if combination_key = "" then EndpointResult.httpError 400 "combination_key empty"
  else if ¬ (0 ≤ reward ∧ reward ≤ 1) then EndpointResult.httpError 400 "reward out of range"
  else
    EndpointResult.ok
      (RewardResponse.mk true ("reward applied: " ++ combination_key))
      (update_reward store combination_key reward flushOk).1

/-- The documented store invariant: every stored belief has `alpha ≥ 1` and
  `beta ≥ 1`. -/
def StoreInv (store : Store) : Prop :=
  ∀ e ∈ store, 1 ≤ e.2.alpha ∧ 1 ≤ e.2.beta

/- ### General lemmas about lookup and the update map -/

theorem lookup_map_update (store : Store) (key : String) (f : Belief → Belief) :
    lookup (store.map (fun e => if e.1 == key then (e.1, f e.2) else e)) key =
      (lookup store key).map f := by
  induction store with
  | nil => rfl
  | cons hd tl ih =>
    by_cases h : hd.1 = key
    · simp [lookup, h]
    · rw [List.map_cons,
        show (if hd.1 == key then (hd.1, f hd.2) else hd) = hd by simp [h]]
      simp only [lookup]
      rw [if_neg (by simp [h]), if_neg (by simp [h])]
      exact ih

theorem lookup_map_update_other (store : Store) (key k2 : String)
    (f : Belief → Belief) (hne : k2 ≠ key) :
    lookup (store.map (fun e => if e.1 == key then (e.1, f e.2) else e)) k2 =
      lookup store k2 := by
  induction store with
  | nil => rfl
  | cons hd tl ih =>
    by_cases h : hd.1 = key
    · rw [List.map_cons,
        show (if hd.1 == key then (hd.1, f hd.2) else hd) = (hd.1, f hd.2) by simp [h]]
      simp only [lookup]
      rw [if_neg (by simp only [beq_iff_eq]; exact fun hc => hne (hc.symm.trans h)),
        if_neg (by simp only [beq_iff_eq]; exact fun hc => hne (hc.symm.trans h))]
      exact ih
    · rw [List.map_cons,
        show (if hd.1 == key then (hd.1, f hd.2) else hd) = hd by simp [h]]
      simp only [lookup]
      by_cases h2 : hd.1 = k2
      · rw [if_pos (by simp [h2]), if_pos (by simp [h2])]
      · rw [if_neg (by simp [h2]), if_neg (by simp [h2])]
        exact ih

theorem update_reward_unknown (store : Store) (key : String) (reward : ℚ)
    (flushOk : Bool) (h : lookup store key = none) :
    update_reward store key reward flushOk = (store, UpdateLog.unknownKey key) := by
  simp only [update_reward, h]

theorem update_reward_known (store : Store) (key : String) (reward : ℚ)
    (flushOk : Bool) (b : Belief) (h : lookup store key = some b) :
    update_reward store key reward flushOk =
      (store.map (fun e =>
          if e.1 == key then
            (e.1, Belief.mk (e.2.alpha + max 0 (min 1 reward))
                            (e.2.beta + (1 - max 0 (min 1 reward))))
          else e),
       UpdateLog.updated key (b.alpha + max 0 (min 1 reward))
         (b.beta + (1 - max 0 (min 1 reward))) (!flushOk)) := by
  simp only [update_reward, h]

/-- C1 (amended): a reward update whose combination key is not present in the
  bandit store is a no-op that leaves every belief unchanged and creates no
  belief for the key; the outcome is distinguishable only in the process log
  (the unknown-combination message), not in any value returned to the caller:
  the Python method returns None on both paths, and the HTTP layer answers
  `success=True` with an applied-message even for the unknown key, so no
  `applied = false` result reaches the caller. -/
theorem C1_unknown_key_update_noop (store : Store) (key : String) (reward : ℚ)
    (flushOk : Bool) (h : lookup store key = none) :
    update_reward store key reward flushOk = (store, UpdateLog.unknownKey key) ∧
    (key ≠ "" → 0 ≤ reward → reward ≤ 1 →
      reward_endpoint store key reward flushOk =
        EndpointResult.ok (RewardResponse.mk true ("reward applied: " ++ key)) store) := by
  constructor
  · exact update_reward_unknown store key reward flushOk h
  · intro hk h0 h1
    rw [reward_endpoint, if_neg hk, if_neg (not_not_intro ⟨h0, h1⟩),
      update_reward_unknown store key reward flushOk h]

theorem C1_unknown_key_update_noop_witness :
    update_reward [("a|b|c", Belief.mk 1 1)] "x|y|z" 1 true =
      ([("a|b|c", Belief.mk 1 1)], UpdateLog.unknownKey "x|y|z") :=
  (C1_unknown_key_update_noop [("a|b|c", Belief.mk 1 1)] "x|y|z" 1 true (by decide)).1

/-- C1 counterexample: with the store holding only key `a|b|c`, updating the
  unknown key `x|y|z` leaves the store unchanged (the log records the
  unknown-combination message), yet the `/reward` endpoint reports
  `success = true` with an applied-message to the caller — the no-op is not
  reported to the caller as a distinguishable `applied = false` result. -/
theorem C1_counterexample :
    reward_endpoint [("a|b|c", Belief.mk 1 1)] "x|y|z" 1 true =
      EndpointResult.ok (RewardResponse.mk true "reward applied: x|y|z")
        [("a|b|c", Belief.mk 1 1)] ∧
    (update_reward [("a|b|c", Belief.mk 1 1)] "x|y|z" 1 true).2 =
      UpdateLog.unknownKey "x|y|z" := by
  decide

/-- C4: for a key present in the store, one `update(key, r)` replaces the
  belief `(alpha, beta)` by `(alpha + r', beta + (1 - r'))` with `r'` the
  clamped reward, so the new masses sum to the old sum plus one, and the
  belief of every other key is unchanged. -/
theorem C4_mass_conservation (store : Store) (key : String) (reward : ℚ)
    (flushOk : Bool) (b : Belief) (h : lookup store key = some b) :
    lookup (update_reward store key reward flushOk).1 key =
      some (Belief.mk (b.alpha + max 0 (min 1 reward))
                      (b.beta + (1 - max 0 (min 1 reward)))) ∧
    (b.alpha + max 0 (min 1 reward)) + (b.beta + (1 - max 0 (min 1 reward)))
      = b.alpha + b.beta + 1 ∧
    (∀ k2, k2 ≠ key →
      lookup (update_reward store key reward flushOk).1 k2 = lookup store k2) := by
  rw [update_reward_known store key reward flushOk b h]
  refine ⟨?_, by ring, ?_⟩
  · rw [lookup_map_update store key
      (fun bb => Belief.mk (bb.alpha + max 0 (min 1 reward))
                           (bb.beta + (1 - max 0 (min 1 reward)))), h]
    rfl
  · intro k2 hne
    exact lookup_map_update_other store key k2
      (fun bb => Belief.mk (bb.alpha + max 0 (min 1 reward))
                           (bb.beta + (1 - max 0 (min 1 reward)))) hne

theorem C4_mass_conservation_witness :
    lookup (update_reward [("k", Belief.mk 1 1)] "k" 5 true).1 "k" =
      some (Belief.mk (1 + max 0 (min 1 5)) (1 + (1 - max 0 (min 1 5)))) :=
  (C4_mass_conservation [("k", Belief.mk 1 1)] "k" 5 true (Belief.mk 1 1)
    (by decide)).1

/-- C9: when the flush to durable storage fails during a reward update on a
  known key, the in-memory mutation is retained: the post-state equals the
  post-state of a successful flush, the updated belief is readable, the log
  records both the update and the flush failure, and a subsequent update on
  the same key still applies (mass grows to the old sum plus two). -/
theorem C9_flush_failure_retained (store : Store) (key : String) (reward : ℚ)
    (b : Belief) (h : lookup store key = some b) :
    (update_reward store key reward false).1 = (update_reward store key reward true).1 ∧
    lookup (update_reward store key reward false).1 key =
      some (Belief.mk (b.alpha + max 0 (min 1 reward))
                      (b.beta + (1 - max 0 (min 1 reward)))) ∧
    (update_reward store key reward false).2 =
      UpdateLog.updated key (b.alpha + max 0 (min 1 reward))
        (b.beta + (1 - max 0 (min 1 reward))) true ∧
    (∀ r2 f2, ∃ b2,
      lookup (update_reward (update_reward store key reward false).1 key r2 f2).1 key
        = some b2 ∧ b2.alpha + b2.beta = b.alpha + b.beta + 2) := by
  have hk := update_reward_known store key reward false b h
  have hlook : lookup (update_reward store key reward false).1 key =
      some (Belief.mk (b.alpha + max 0 (min 1 reward))
                      (b.beta + (1 - max 0 (min 1 reward)))) := by
    rw [hk]
    rw [lookup_map_update store key
      (fun bb => Belief.mk (bb.alpha + max 0 (min 1 reward))
                           (bb.beta + (1 - max 0 (min 1 reward)))), h]
    rfl
  refine ⟨?_, hlook, ?_, ?_⟩
  · rw [hk, update_reward_known store key reward true b h]
  · rw [hk]
    rfl
  · intro r2 f2
    refine ⟨Belief.mk ((b.alpha + max 0 (min 1 reward)) + max 0 (min 1 r2))
      ((b.beta + (1 - max 0 (min 1 reward))) + (1 - max 0 (min 1 r2))), ?_, by ring⟩
    rw [update_reward_known _ key r2 f2 _ hlook]
    rw [lookup_map_update _ key
      (fun bb => Belief.mk (bb.alpha + max 0 (min 1 r2))
                           (bb.beta + (1 - max 0 (min 1 r2)))), hlook]
    rfl

theorem C9_flush_failure_retained_witness :
    lookup (update_reward [("k", Belief.mk 1 1)] "k" 1 false).1 "k" =
      some (Belief.mk (1 + max 0 (min 1 1)) (1 + (1 - max 0 (min 1 1)))) :=
  (C9_flush_failure_retained [("k", Belief.mk 1 1)] "k" 1 (Belief.mk 1 1)
    (by decide)).2.1

/-- The record returned by `RapoBanditAgent.select_combination`. -/
structure SelectionResult where
  combination_key : Option String
  place : String
  verb : String
  scenario : String
  estimated_reward : ℚ
deriving DecidableEq, Repr

/-- The default answer returned when there are neither candidates nor stored
  combinations (`combination_key = None`, default texts, reward `0.5`). -/
def sentinelResult : SelectionResult :=
  SelectionResult.mk none "default place" "default verb" "default scenario" (mkRat 1 2)

/-- Python truthiness of the `candidates` argument: `not candidates` is true
  for both `None` and the empty list. -/
def candidatesFalsy (cands : Option (List (String × String × String))) : Bool :=
  match cands with
  | none => true
  | some l => l.isEmpty

/-- The registration loop of `select_combination`: build the key of every
  candidate in order (duplicates kept, as in the Python list `keys`) and add
  a fresh `(1, 1)` belief for each key not yet in the store. -/
def registerKeys (store : Store) (cands : List (String × String × String)) :
    List String × Store :=
  cands.foldl
    (fun acc t =>
      let key := make_key t.1 t.2.1 t.2.2
      (acc.1 ++ [key],
       if (lookup acc.2 key).isSome then acc.2 else acc.2 ++ [(key, Belief.mk 1 1)]))
    ([], store)

/-- np.argmax: index of the first occurrence of the maximum value (0 on the
  empty list, which `select_combination` never reaches). -/
def argmaxIdx : List ℚ → ℕ
  | [] => 0
  | [_] => 0
  | x :: y :: rest =>
    let j := argmaxIdx (y :: rest)
    if x < (y :: rest).getD j 0 then j + 1 else 0

/-- RapoBanditAgent.select_combination: if there are no candidates and no
  stored combinations, answer the sentinel; otherwise take the keys from the
  candidates (registering unseen ones) or, when the candidate argument is
  falsy, from the whole store; Thompson-sample each key's belief via the
  `sample` oracle; pick the first arg-max; parse the winning key into its
  three parts. -/
def select_combination (store : Store)
    (cands : Option (List (String × String × String)))
    (sample : ℕ → ℚ → ℚ → ℚ) : SelectionResult × Store :=
  if candidatesFalsy cands && store.isEmpty then (sentinelResult, store)
  else
    let ks : List String × Store :=
      match cands with
      | some l => if l.isEmpty then (store.map (fun e => e.1), store)
                  else registerKeys store l
      | none => (store.map (fun e => e.1), store)
    let keys := ks.1
    let store2 := ks.2
    let sampled := keys.mapIdx (fun i k =>
      let b := (lookup store2 k).getD (Belief.mk 1 1)
      sample i b.alpha b.beta)
    let bi := argmaxIdx sampled
    let bk := keys.getD bi ""
    let pvs := parse_key bk
    (SelectionResult.mk (some bk) pvs.1 pvs.2.1 pvs.2.2 (sampled.getD bi 0), store2)

/- ### General lemmas about the selector -/

theorem parse_key_of_malformed (key : String) (h : (splitKey key).length ≠ 3) :
    parse_key key = ("", "", "") := by
  rw [parse_key]
  exact if_neg h

theorem argmaxIdx_lt_length (l : List ℚ) (h : l ≠ []) : argmaxIdx l < l.length := by
  match l with
  | [x] => simp [argmaxIdx]
  | x :: y :: rest =>
    rw [argmaxIdx]
    split
    · have ih := argmaxIdx_lt_length (y :: rest) (by simp)
      simpa using Nat.succ_lt_succ ih
    · simp

theorem lookup_ne_none_of_mem_keys (store : Store) (k : String)
    (h : k ∈ store.map (fun e => e.1)) : lookup store k ≠ none := by
  induction store with
  | nil => simp at h
  | cons hd tl ih =>
    rw [List.map_cons, List.mem_cons] at h
    rcases h with h | h
    · rw [lookup, if_pos (by simp [h])]
      simp
    · rw [lookup]
      split
      · simp
      · exact ih h

theorem foldl_register_inv (cands : List (String × String × String))
    (acc : List String × Store) (h : StoreInv acc.2) :
    StoreInv (cands.foldl
      (fun acc t =>
        let key := make_key t.1 t.2.1 t.2.2
        (acc.1 ++ [key],
         if (lookup acc.2 key).isSome then acc.2
         else acc.2 ++ [(key, Belief.mk 1 1)])) acc).2 := by
  induction cands generalizing acc with
  | nil => exact h
  | cons hd tl ih =>
    rw [List.foldl_cons]
    apply ih
    dsimp only
    split
    · exact h
    · intro e he
      rcases List.mem_append.mp he with h1 | h2
      · exact h e h1
      · rw [List.mem_singleton] at h2
        subst h2
        exact ⟨le_refl 1, le_refl 1⟩

theorem registerKeys_inv (store : Store) (cands : List (String × String × String))
    (h : StoreInv store) : StoreInv (registerKeys store cands).2 :=
  foldl_register_inv cands ([], store) h

theorem select_preserves_inv (store : Store)
    (cands : Option (List (String × String × String)))
    (sample : ℕ → ℚ → ℚ → ℚ) (h : StoreInv store) :
    StoreInv (select_combination store cands sample).2 := by
  unfold select_combination
  split
  · exact h
  · cases cands with
    | none => exact h
    | some l =>
      show StoreInv (if l.isEmpty = true then (List.map (fun e => e.1) store, store)
        else registerKeys store l).2
      by_cases hl : l.isEmpty
      · rw [if_pos hl]
        exact h
      · rw [if_neg hl]
        exact registerKeys_inv store l h

theorem select_result_fields (store : Store)
    (cands : Option (List (String × String × String)))
    (sample : ℕ → ℚ → ℚ → ℚ) :
    (select_combination store cands sample).1 = sentinelResult ∨
    ∃ bk, (select_combination store cands sample).1.combination_key = some bk ∧
      (select_combination store cands sample).1.place = (parse_key bk).1 ∧
      (select_combination store cands sample).1.verb = (parse_key bk).2.1 ∧
      (select_combination store cands sample).1.scenario = (parse_key bk).2.2 := by
  unfold select_combination
  split
  · left
    rfl
  · right
    exact ⟨_, rfl, rfl, rfl, rfl⟩

theorem getD_mem_of_lt (l : List String) (n : ℕ) (d : String) (h : n < l.length) :
    l.getD n d ∈ l := by
  rw [List.getD_eq_getElem?_getD, List.getElem?_eq_getElem h]
  exact List.getElem_mem h

theorem select_fallback_on_store (store : Store)
    (cands : Option (List (String × String × String)))
    (sample : ℕ → ℚ → ℚ → ℚ)
    (hc : candidatesFalsy cands = true) (hs : store ≠ []) :
    select_combination store cands sample =
      (let keys := store.map (fun e => e.1)
       let sampled := keys.mapIdx (fun i k =>
         let b := (lookup store k).getD (Belief.mk 1 1)
         sample i b.alpha b.beta)
       let bi := argmaxIdx sampled
       let bk := keys.getD bi ""
       let pvs := parse_key bk
       (SelectionResult.mk (some bk) pvs.1 pvs.2.1 pvs.2.2 (sampled.getD bi 0),
        store)) := by
  have hcond : ¬ ((candidatesFalsy cands && store.isEmpty) = true) := by
    rw [hc, Bool.true_and]
    exact fun hempty => hs (List.isEmpty_iff.mp hempty)
  unfold select_combination
  rw [if_neg hcond]
  rcases cands with _ | l
  · rfl
  · have hl : l.isEmpty = true := hc
    simp only [hl]
    rfl

/-- C2 (amended): with an empty (or absent) candidate set, `select` returns
  the sentinel result only when the bandit store is also empty; when the
  store is non-empty, it instead selects among all stored combinations,
  returning some stored key and leaving the store unchanged. -/
theorem C2_empty_candidates (store : Store)
    (cands : Option (List (String × String × String)))
    (sample : ℕ → ℚ → ℚ → ℚ) (hc : candidatesFalsy cands = true) :
    (store = [] → select_combination store cands sample = (sentinelResult, store)) ∧
    (store ≠ [] →
      (select_combination store cands sample).2 = store ∧
      ∃ k, (select_combination store cands sample).1.combination_key = some k ∧
        lookup store k ≠ none) := by
  constructor
  · intro hse
    subst hse
    unfold select_combination
    rw [if_pos (by rw [hc]; rfl)]
  · intro hs
    rw [select_fallback_on_store store cands sample hc hs]
    refine ⟨rfl, ?_⟩
    refine ⟨_, rfl, ?_⟩
    apply lookup_ne_none_of_mem_keys
    apply getD_mem_of_lt
    have hkeys : (store.map (fun e => e.1)) ≠ [] := by
      intro h0
      exact hs (List.map_eq_nil_iff.mp h0)
    have hsampled : (List.mapIdx (fun i k =>
        let b := (lookup store k).getD (Belief.mk 1 1)
        sample i b.alpha b.beta) (store.map (fun e => e.1))) ≠ [] := by
      intro h0
      apply hkeys
      have hlen := congrArg List.length h0
      rw [List.length_mapIdx] at hlen
      exact List.length_eq_zero.mp hlen
    have h1 := argmaxIdx_lt_length _ hsampled
    rw [List.length_mapIdx] at h1
    exact h1

theorem C2_empty_candidates_witness :
    select_combination [] (some []) (fun _ _ _ => 1) = (sentinelResult, []) :=
  (C2_empty_candidates [] (some []) (fun _ _ _ => 1) (by decide)).1 rfl

/-- C2 counterexample: the candidate set is empty but the store already holds
  the key `a|b|c`; `select` does not return the sentinel — it picks the
  stored combination. -/
theorem C2_counterexample :
    (select_combination [("a|b|c", Belief.mk 1 1)] (some [])
        (fun _ _ _ => 1)).1.combination_key = some "a|b|c" ∧
    (select_combination [("a|b|c", Belief.mk 1 1)] (some [])
        (fun _ _ _ => 1)).1 ≠ sentinelResult := by
  decide

/-- C3: the clamped reward lies in `[0, 1]` (so both additive terms of an
  update are non-negative), and the store invariant `alpha ≥ 1 ∧ beta ≥ 1`
  — established at creation with `alpha = beta = 1` — is preserved by every
  reward update and by every selection (including its lazy registration of
  new keys). -/
theorem C3_beliefs_invariant (store : Store) (key : String) (reward : ℚ)
    (flushOk : Bool) (cands : Option (List (String × String × String)))
    (sample : ℕ → ℚ → ℚ → ℚ) (h : StoreInv store) :
    (0 ≤ max 0 (min 1 reward) ∧ max 0 (min 1 reward) ≤ 1) ∧
    StoreInv (update_reward store key reward flushOk).1 ∧
    StoreInv (select_combination store cands sample).2 := by
  have hr0 : (0:ℚ) ≤ max 0 (min 1 reward) := le_max_left 0 _
  have hr1 : max 0 (min 1 reward) ≤ 1 := max_le (by norm_num) (min_le_left 1 reward)
  refine ⟨⟨hr0, hr1⟩, ?_, select_preserves_inv store cands sample h⟩
  cases hl : lookup store key with
  | none =>
    rw [update_reward_unknown store key reward flushOk hl]
    exact h
  | some b =>
    rw [update_reward_known store key reward flushOk b hl]
    intro e he
    rcases List.mem_map.mp he with ⟨e0, he0, heq⟩
    rw [← heq]
    by_cases hk : (e0.1 == key) = true
    · rw [if_pos hk]
      refine ⟨le_add_of_le_of_nonneg (h e0 he0).1 hr0, ?_⟩
      exact le_add_of_le_of_nonneg (h e0 he0).2 (by linarith)
    · rw [if_neg hk]
      exact h e0 he0

theorem C3_beliefs_invariant_witness :
    (0 ≤ max 0 (min 1 (2:ℚ)) ∧ max 0 (min 1 (2:ℚ)) ≤ 1) ∧
    StoreInv (update_reward [("k", Belief.mk 1 1)] "k" 2 true).1 ∧
    StoreInv (select_combination [("k", Belief.mk 1 1)]
      (some [("p", "v", "s")]) (fun _ _ _ => 1)).2 :=
  C3_beliefs_invariant [("k", Belief.mk 1 1)] "k" 2 true
    (some [("p", "v", "s")]) (fun _ _ _ => 1) (by unfold StoreInv; decide)

theorem splitBar_ne_nil (l : List Char) : splitBar l ≠ [] := by
  cases l with
  | nil => simp [splitBar]
  | cons c rest =>
    rw [splitBar]
    rcases h : splitBar rest with _ | ⟨p, ps⟩
    · simp
    · dsimp only
      by_cases hc : c = '|'
      · rw [if_pos hc]
        simp
      · rw [if_neg hc]
        simp

theorem splitBar_length (l : List Char) :
    (splitBar l).length = l.count '|' + 1 := by
  induction l with
  | nil => rfl
  | cons c rest ih =>
    rw [splitBar]
    rcases h : splitBar rest with _ | ⟨p, ps⟩
    · exact absurd h (splitBar_ne_nil rest)
    · rw [h] at ih
      dsimp only
      by_cases hc : c = '|'
      · rw [if_pos hc]
        simp only [List.length_cons] at ih ⊢
        rw [List.count_cons, if_pos (by simp [hc])]
        omega
      · rw [if_neg hc]
        simp only [List.length_cons] at ih ⊢
        rw [List.count_cons, if_neg (by simp [hc])]
        omega

theorem splitKey_length (s : String) :
    (splitKey s).length = s.data.count '|' + 1 := by
  rw [splitKey, List.length_map, splitBar_length]

theorem make_key_data (p v s : String) :
    (make_key p v s).data = p.data ++ '|' :: (v.data ++ '|' :: s.data) := by
  rw [make_key, String.data_append, String.data_append, String.data_append,
    String.data_append]
  have hb : ("|" : String).data = ['|'] := rfl
  rw [hb]
  simp

theorem splitKey_make_key_length (p v s : String) :
    (splitKey (make_key p v s)).length =
      p.data.count '|' + v.data.count '|' + s.data.count '|' + 3 := by
  rw [splitKey_length, make_key_data]
  rw [List.count_append, List.count_cons_self, List.count_append,
    List.count_cons_self]
  omega

/-- C10: when the winning combination key of a selection does not split on
  the bar delimiter into exactly three parts — which happens whenever any
  modifier text itself contains a bar, since `_make_key` is then not
  injective — `select` returns empty place, verb and scenario texts while
  `combination_key` still carries the full key. -/
theorem C10_malformed_key_parse (store : Store)
    (cands : Option (List (String × String × String)))
    (sample : ℕ → ℚ → ℚ → ℚ) (k : String)
    (hk : (select_combination store cands sample).1.combination_key = some k)
    (h3 : (splitKey k).length ≠ 3) :
    (select_combination store cands sample).1.place = "" ∧
    (select_combination store cands sample).1.verb = "" ∧
    (select_combination store cands sample).1.scenario = "" ∧
    make_key "a|b" "c" "d" = make_key "a" "b" "c|d" ∧
    ("a|b", "c", "d") ≠ (("a", "b", "c|d") : String × String × String) ∧
    (∀ p v s : String, '|' ∈ p.data ∨ '|' ∈ v.data ∨ '|' ∈ s.data →
      (splitKey (make_key p v s)).length ≠ 3) := by
  rcases select_result_fields store cands sample with hs | ⟨bk, hbk, hp, hv, hsc⟩
  · rw [hs] at hk
    exact absurd hk (by rw [sentinelResult]; exact fun hcontr => by cases hcontr)
  · rw [hbk] at hk
    obtain rfl : bk = k := Option.some.inj hk
    refine ⟨?_, ?_, ?_, by decide, by decide, ?_⟩
    · rw [hp, parse_key_of_malformed bk h3]
    · rw [hv, parse_key_of_malformed bk h3]
    · rw [hsc, parse_key_of_malformed bk h3]
    · intro p v s hmem
      rw [splitKey_make_key_length p v s]
      rcases hmem with hm | hm | hm
      · have := List.count_pos_iff.mpr hm
        omega
      · have := List.count_pos_iff.mpr hm
        omega
      · have := List.count_pos_iff.mpr hm
        omega

theorem C10_malformed_key_parse_witness :
    (select_combination [] (some [("a|b", "c", "d")])
      (fun _ _ _ => 1)).1.place = "" :=
  (C10_malformed_key_parse [] (some [("a|b", "c", "d")]) (fun _ _ _ => 1)
    "a|b|c|d" (by decide) (by decide)).1

/-!
Retrieval layer (`src/rapo/retrieve_modifiers.py`).

The source normalizes all vectors to unit L2 norm and ranks by dot product
(`cosine_similarity`); exact L2 norms are irrational in general, so vectors
are modelled as already unit-normalized and the similarity is the dot
product.  Every claim below depends only on comparisons between similarity
values, which this preserves.

Sorting: Python's `list.sort` and a stable `np.argsort` keep items with
equal keys in their original relative order, which is exactly a total sort
by the lexicographic pair (key, original position).  `lexRank` is that
relation; it is a linear order whenever the positions are distinct, so the
sorted permutation is unique and algorithm-independent.
-/

/-- Strict-by-score then by-position lexicographic ranking used to model
  stable sorts: `x` ranks before `y` if its score is strictly smaller, or on
  equal scores if its position is not larger. -/
def lexRank {α : Type} (f : α → ℚ) (g : α → ℕ) (x y : α) : Prop :=
  f x < f y ∨ (f x = f y ∧ g x ≤ g y)

instance {α : Type} (f : α → ℚ) (g : α → ℕ) : DecidableRel (lexRank f g) :=
  fun x y => by unfold lexRank; infer_instance

theorem lexRank_total {α : Type} (f : α → ℚ) (g : α → ℕ) :
    ∀ x y, lexRank f g x y ∨ lexRank f g y x := by
  intro x y
  rcases lt_trichotomy (f x) (f y) with h | h | h
  · exact Or.inl (Or.inl h)
  · rcases Nat.le_total (g x) (g y) with hg | hg
    · exact Or.inl (Or.inr ⟨h, hg⟩)
    · exact Or.inr (Or.inr ⟨h.symm, hg⟩)
  · exact Or.inr (Or.inl h)

theorem lexRank_trans {α : Type} (f : α → ℚ) (g : α → ℕ) :
    ∀ x y z, lexRank f g x y → lexRank f g y z → lexRank f g x z := by
  intro x y z hxy hyz
  rcases hxy with h1 | ⟨h1, h1i⟩
  · rcases hyz with h2 | ⟨h2, _⟩
    · exact Or.inl (h1.trans h2)
    · exact Or.inl (lt_of_lt_of_eq h1 h2)
  · rcases hyz with h2 | ⟨h2, h2i⟩
    · exact Or.inl (lt_of_eq_of_lt h1 h2)
    · exact Or.inr ⟨h1.trans h2, le_trans h1i h2i⟩

/-- cosine_similarity of retrieve_modifiers.py under the unit-norm modelling:
  the dot product of the two vectors. -/
def cosineSimilarity (a b : List ℚ) : ℚ :=
  (List.zipWith (fun x y => x * y) a b).sum

/-- Stable ascending `np.argsort(sims)`: the indices `0, …, n-1` sorted by
  value, ties keeping index order — the unique permutation sorted by the
  lexicographic (value, index) order. -/
def argsortAsc (sims : List ℚ) : List ℕ :=
  (List.range sims.length).insertionSort
    (lexRank (fun i => sims.getD i 0) (fun i => i))

/-- Python slice `l[-k:]`: the last `k` elements — except that `l[-0:]` is
  the whole list. -/
def sliceLast {α : Type} (l : List α) (k : ℕ) : List α :=
  if k = 0 then l else l.drop (l.length - k)

/-- The top-K similarity query `np.argsort(sim)[-k:][::-1]` used for the
  place shortlist in `retrieve` (lines 140–144): indices of the pool ranked
  by descending similarity to the query. -/
def topK (pool : List (List ℚ)) (query : List ℚ) (k : ℕ) : List ℕ :=
  (sliceLast (argsortAsc (pool.map (fun v => cosineSimilarity query v))) k).reverse

/-- The candidate/embedding pairing loop of `_filter_by_similarity`: keep the
  candidates found in `to_idx` whose index is inside the embedding list,
  paired with their embedding (`valid_candidates` / `valid_embeds`). -/
def validPairs (candidates : List String) (to_idx : String → Option ℕ)
    (embeddings : List (List ℚ)) : List (String × List ℚ) :=
  candidates.filterMap (fun c =>
    match to_idx c with
    | some i => (embeddings.get? i).map (fun e => (c, e))
    | none => none)

/-- ModifierRetriever._filter_by_similarity: empty candidates give an empty
  answer; candidates missing from the index are dropped; if none survive,
  the original pool truncated to `top_k` is returned; otherwise the
  surviving candidates are ranked by descending similarity to the topic
  (stable argsort, last `min top_k |valid|` reversed). -/
def filter_by_similarity (candidates : List String) (to_idx : String → Option ℕ)
    (embeddings : List (List ℚ)) (topic_emb : List ℚ) (top_k : ℕ) : List String :=
  if candidates.isEmpty then []
  else if (validPairs candidates to_idx embeddings).isEmpty then
    candidates.take top_k
  else
    ((sliceLast (argsortAsc ((validPairs candidates to_idx embeddings).map
        (fun p => cosineSimilarity topic_emb p.2)))
      (min top_k (validPairs candidates to_idx embeddings).length)).reverse).filterMap
      (fun i => ((validPairs candidates to_idx embeddings).get? i).map (fun p => p.1))

/-- The result dictionary of `ModifierRetriever.retrieve`. -/
structure RetrieveResult where
  places : List String
  verbs : List String
  scenarios : List String
  combinations : List (String × String × String)
deriving DecidableEq, Repr

/-- ModifierRetriever.retrieve: embed the topic (passed here already as a
  vector), shortlist the top-K places by similarity, union the graph
  neighbors of the selected places into verb and scenario pools (Python
  `set.update`; the set's iteration order is unspecified and is modelled as
  first-occurrence order, which no claim depends on), re-rank both pools by
  similarity, and emit the full cross-product as the candidate combinations.
  An absent graph node has no neighbors (`has_node` guard), so the graphs
  are passed as total neighbor functions returning `[]` when absent.  An
  empty place-embedding table short-circuits to four empty lists. -/
def retrieve (place_embed : List (List ℚ)) (idx_to_place : ℕ → String)
    (g_place_verb g_place_scene : String → List String)
    (verb_to_idx : String → Option ℕ) (verb_embed : List (List ℚ))
    (scenario_to_idx : String → Option ℕ) (scenario_embed : List (List ℚ))
    (topic_emb : List ℚ) (top_k_places top_k_verbs top_k_scenarios : ℕ) :
    RetrieveResult :=
  if place_embed.isEmpty then RetrieveResult.mk [] [] [] []
  else
    let top_places := (topK place_embed topic_emb top_k_places).map idx_to_place
    let candidate_verbs := (top_places.flatMap g_place_verb).dedup
    let candidate_scenarios := (top_places.flatMap g_place_scene).dedup
    let top_verbs := filter_by_similarity candidate_verbs verb_to_idx
      verb_embed topic_emb top_k_verbs
    let top_scenarios := filter_by_similarity candidate_scenarios scenario_to_idx
      scenario_embed topic_emb top_k_scenarios
    RetrieveResult.mk top_places top_verbs top_scenarios
      (top_places.flatMap (fun p =>
        top_verbs.flatMap (fun v =>
          top_scenarios.map (fun s => (p, v, s)))))

/-- One row of the list built by `get_top_combinations`. -/
structure TopEntry where
  key : String
  place : String
  verb : String
  scenario : String
  mean_reward : ℚ
  alpha : ℚ
  beta : ℚ
deriving DecidableEq, Repr

/-- The row built for one stored combination: parsed key parts, the mean
  reward `alpha / (alpha + beta)`, and the raw belief parameters. -/
def topEntryOf (e : String × Belief) : TopEntry :=
  let pvs := parse_key e.1
  TopEntry.mk e.1 pvs.1 pvs.2.1 pvs.2.2
    (e.2.alpha / (e.2.alpha + e.2.beta)) e.2.alpha e.2.beta

/-- The rows of the store tagged with their positions and sorted by
  Python's stable `results.sort(key=mean_reward, reverse=True)`: a total
  sort by (descending mean, ascending position), the negated mean encoding
  the descending direction. -/
def rankedEntries (store : Store) : List (ℕ × TopEntry) :=
  ((store.map topEntryOf).enum).insertionSort
    (lexRank (fun p => -(p.2.mean_reward)) (fun p => p.1))

/-- RapoBanditAgent.get_top_combinations: the rows sorted by descending mean
  reward (stable), truncated to the first `n`. -/
def get_top_combinations (store : Store) (n : ℕ) : List TopEntry :=
  ((rankedEntries store).map (fun p => p.2)).take n

theorem rankedEntries_sorted (store : Store) :
    (rankedEntries store).Pairwise
      (lexRank (fun p => -(p.2.mean_reward)) (fun p : ℕ × TopEntry => p.1)) := by
  haveI : IsTotal (ℕ × TopEntry)
      (lexRank (fun p => -(p.2.mean_reward)) (fun p => p.1)) :=
    ⟨lexRank_total _ _⟩
  haveI : IsTrans (ℕ × TopEntry)
      (lexRank (fun p => -(p.2.mean_reward)) (fun p => p.1)) :=
    ⟨lexRank_trans _ _⟩
  exact List.sorted_insertionSort _ _

/-- C5 (amended): `topN` returns the rows sorted by descending mean reward
  `alpha / (alpha + beta)`, with ties between equal means broken by the
  store's insertion order (the position tag of each row; Python's sort is
  stable), not by lexical key order; the rows are a permutation of one row
  per stored belief truncated to `n`, and the store itself is read but
  never written. -/
theorem C5_topn_sorted (store : Store) (n : ℕ) :
    (get_top_combinations store n).Pairwise
      (fun x y => y.mean_reward ≤ x.mean_reward) ∧
    (rankedEntries store).Pairwise
      (fun x y => x.2.mean_reward = y.2.mean_reward → x.1 ≤ y.1) ∧
    (rankedEntries store).Perm ((store.map topEntryOf).enum) ∧
    (get_top_combinations store n).length = min n store.length := by
  have hsorted := rankedEntries_sorted store
  refine ⟨?_, ?_, List.perm_insertionSort _ _, ?_⟩
  · have h1 : ((rankedEntries store).map (fun p => p.2)).Pairwise
        (fun x y => y.mean_reward ≤ x.mean_reward) := by
      refine List.Pairwise.map _ ?_ hsorted
      intro a b hab
      rcases hab with hlt | ⟨heq, _⟩
      · dsimp only at hlt
        exact le_of_lt (by linarith)
      · dsimp only at heq
        exact le_of_eq (by linarith)
    exact List.Pairwise.sublist (List.take_sublist n _) h1
  · refine hsorted.imp ?_
    intro a b hab heq
    rcases hab with hlt | ⟨_, hle⟩
    · dsimp only at hlt
      rw [heq] at hlt
      exact absurd hlt (lt_irrefl _)
    · exact hle
  · rw [get_top_combinations, List.length_take, List.length_map,
      rankedEntries, List.length_insertionSort, List.enum_length,
      List.length_map]

/-- C5 counterexample: two stored keys `b` then `a` with identical beliefs
  (mean one half each); topN returns them in store insertion order
  `[b, a]`, whereas the claimed lexical tie-break on keys would put `a`
  (lexically smaller) first. -/
theorem C5_counterexample :
    (get_top_combinations [("b", Belief.mk 1 1), ("a", Belief.mk 1 1)] 2).map
      TopEntry.key = ["b", "a"] ∧
    'a' < 'b' ∧ (["b", "a"] : List String) ≠ ["a", "b"] := by
  refine ⟨?_, by decide, by decide⟩
  norm_num [get_top_combinations, rankedEntries, topEntryOf, List.enum,
    List.enumFrom, List.insertionSort, List.orderedInsert, lexRank]

theorem argsortAsc_sorted (sims : List ℚ) :
    (argsortAsc sims).Pairwise (lexRank (fun i => sims.getD i 0) (fun i => i)) := by
  haveI : IsTotal ℕ (lexRank (fun i => sims.getD i 0) (fun i => i)) :=
    ⟨lexRank_total _ _⟩
  haveI : IsTrans ℕ (lexRank (fun i => sims.getD i 0) (fun i => i)) :=
    ⟨lexRank_trans _ _⟩
  exact List.sorted_insertionSort _ _

theorem argsortAsc_perm (sims : List ℚ) :
    (argsortAsc sims).Perm (List.range sims.length) :=
  List.perm_insertionSort _ _

theorem argsortAsc_length (sims : List ℚ) :
    (argsortAsc sims).length = sims.length := by
  rw [argsortAsc, List.length_insertionSort, List.length_range]

theorem mem_argsortAsc (sims : List ℚ) (i : ℕ) :
    i ∈ argsortAsc sims ↔ i < sims.length := by
  rw [(argsortAsc_perm sims).mem_iff, List.mem_range]

theorem sliceLast_of_pos {α : Type} (l : List α) (k : ℕ) (hk : k ≠ 0) :
    sliceLast l k = l.drop (l.length - k) := by
  rw [sliceLast, if_neg hk]

theorem sliceLast_length_of_pos {α : Type} (l : List α) (k : ℕ) (hk : k ≠ 0) :
    (sliceLast l k).length = min k l.length := by
  rw [sliceLast_of_pos l k hk, List.length_drop]
  omega

/-- C6 (amended): for `k ≥ 1` the embedding-index top-K query returns
  exactly `min k n` distinct indices of the pool, ranked by descending
  similarity to the query, with ties between equal similarities broken by
  REVERSE insertion order (the later index first, because the ascending
  argsort slice is reversed); every returned index beats every index left
  out; an empty pool yields an empty list.  (For `k = 0` the Python slice
  `[-0:]` returns the whole pool instead of nothing.) -/
theorem C6_topk_query (pool : List (List ℚ)) (query : List ℚ) (k : ℕ)
    (hk : 1 ≤ k) :
    (topK pool query k).length = min k pool.length ∧
    (pool = [] → topK pool query k = []) ∧
    (topK pool query k).Pairwise (fun i j =>
      (pool.map (fun v => cosineSimilarity query v)).getD j 0 <
        (pool.map (fun v => cosineSimilarity query v)).getD i 0 ∨
      ((pool.map (fun v => cosineSimilarity query v)).getD j 0 =
        (pool.map (fun v => cosineSimilarity query v)).getD i 0 ∧ j ≤ i)) ∧
    (∀ i ∈ topK pool query k, i < pool.length) ∧
    (∀ i ∈ topK pool query k, ∀ j, j < pool.length → j ∉ topK pool query k →
      (pool.map (fun v => cosineSimilarity query v)).getD j 0 ≤
        (pool.map (fun v => cosineSimilarity query v)).getD i 0) := by
  have hk0 : k ≠ 0 := by omega
  have hslice : topK pool query k =
      ((argsortAsc (pool.map (fun v => cosineSimilarity query v))).drop
        ((argsortAsc (pool.map (fun v => cosineSimilarity query v))).length - k)).reverse := by
    rw [topK, sliceLast_of_pos _ _ hk0]
  have hlenpool : (pool.map (fun v => cosineSimilarity query v)).length
      = pool.length := List.length_map _ _
  have hmem_topk : ∀ i, i ∈ topK pool query k ↔
      i ∈ (argsortAsc (pool.map (fun v => cosineSimilarity query v))).drop
        ((argsortAsc (pool.map (fun v => cosineSimilarity query v))).length - k) := by
    intro i
    rw [hslice, List.mem_reverse]
  refine ⟨?_, ?_, ?_, ?_, ?_⟩
  · rw [hslice, List.length_reverse, List.length_drop, argsortAsc_length, hlenpool]
    omega
  · intro hp
    subst hp
    rw [hslice,
      show argsortAsc (List.map (fun v => cosineSimilarity query v) []) = [] from rfl,
      List.drop_nil]
    rfl
  · rw [hslice]
    rw [List.pairwise_reverse]
    refine List.Pairwise.sublist (List.drop_sublist _ _) ?_
    refine (argsortAsc_sorted _).imp ?_
    intro a b hab
    exact hab
  · intro i hi
    have := (hmem_topk i).mp hi
    have hmem := List.mem_of_mem_drop this
    rw [mem_argsortAsc, hlenpool] at hmem
    exact hmem
  · intro i hi j hj hjnot
    set sims := pool.map (fun v => cosineSimilarity query v) with hsims
    have hiDrop := (hmem_topk i).mp hi
    have hjmem : j ∈ argsortAsc sims := by
      rw [mem_argsortAsc, hlenpool]
      exact hj
    have hsplit := List.take_append_drop ((argsortAsc sims).length - k) (argsortAsc sims)
    have hsorted := argsortAsc_sorted sims
    rw [← hsplit] at hsorted
    have hcross := (List.pairwise_append.mp hsorted).2.2
    have hjtake : j ∈ (argsortAsc sims).take ((argsortAsc sims).length - k) := by
      rcases (List.mem_append.mp (by rw [hsplit]; exact hjmem)) with h | h
      · exact h
      · exact absurd ((hmem_topk j).mpr h) hjnot
    have hlex := hcross j hjtake i hiDrop
    rcases hlex with hlt | ⟨heq, _⟩
    · exact le_of_lt hlt
    · exact le_of_eq heq

theorem C6_topk_query_witness :
    (topK [[(1:ℚ)], [1]] [1] 2).length = min 2 2 :=
  (C6_topk_query [[(1:ℚ)], [1]] [1] 2 (by omega)).1

/-- C6 counterexample: a pool of two identical unit vectors (equal cosine
  similarity to the query everywhere) with `k = 2`; the query returns
  `[1, 0]` — the tied items come back in reverse insertion order, not the
  claimed original insertion order `[0, 1]`. -/
theorem C6_counterexample :
    topK [[(1:ℚ)], [1]] [1] 2 = [1, 0] ∧ ([1, 0] : List ℕ) ≠ [0, 1] := by
  refine ⟨?_, by decide⟩
  norm_num [topK, argsortAsc, cosineSimilarity, sliceLast, List.insertionSort,
    List.orderedInsert, lexRank, List.range_succ]

theorem mem_validPairs (candidates : List String) (to_idx : String → Option ℕ)
    (embeddings : List (List ℚ)) (p : String × List ℚ)
    (hp : p ∈ validPairs candidates to_idx embeddings) :
    p.1 ∈ candidates ∧ ∃ i, to_idx p.1 = some i ∧ i < embeddings.length := by
  rw [validPairs, List.mem_filterMap] at hp
  rcases hp with ⟨a, ha, hfa⟩
  cases hti : to_idx a with
  | none => rw [hti] at hfa; cases hfa
  | some i =>
    rw [hti] at hfa
    rcases Option.map_eq_some'.mp hfa with ⟨e, hget, hpe⟩
    have hlen : i < embeddings.length := by
      rcases List.get?_eq_some.mp hget with ⟨h, _⟩
      exact h
    have hp1 : p.1 = a := by rw [← hpe]
    rw [hp1]
    exact ⟨ha, i, hti, hlen⟩

theorem validPairs_eq_nil (candidates : List String) (to_idx : String → Option ℕ)
    (embeddings : List (List ℚ))
    (h : ∀ c ∈ candidates, ∀ i, to_idx c = some i → embeddings.length ≤ i) :
    validPairs candidates to_idx embeddings = [] := by
  rw [validPairs, List.filterMap_eq_nil_iff]
  intro a ha
  cases hti : to_idx a with
  | none => rfl
  | some i =>
    dsimp only
    rw [List.get?_eq_none.mpr (h a ha i hti)]
    rfl

theorem validPairs_ne_nil (candidates : List String) (to_idx : String → Option ℕ)
    (embeddings : List (List ℚ)) (c : String) (i : ℕ) (hc : c ∈ candidates)
    (hti : to_idx c = some i) (hlen : i < embeddings.length) :
    validPairs candidates to_idx embeddings ≠ [] := by
  intro hnil
  rw [validPairs, List.filterMap_eq_nil_iff] at hnil
  have := hnil c hc
  rw [hti] at this
  dsimp only at this
  rw [List.get?_eq_get hlen] at this
  simp at this

theorem filter_by_similarity_subset (candidates : List String)
    (to_idx : String → Option ℕ) (embeddings : List (List ℚ))
    (topic_emb : List ℚ) (top_k : ℕ) :
    ∀ c ∈ filter_by_similarity candidates to_idx embeddings topic_emb top_k,
      c ∈ candidates := by
  intro c hc
  rw [filter_by_similarity] at hc
  split at hc
  · cases hc
  · split at hc
    · exact List.mem_of_mem_take hc
    · rw [List.mem_filterMap] at hc
      rcases hc with ⟨i, _, hfi⟩
      rcases Option.map_eq_some'.mp hfi with ⟨p, hget, hpc⟩
      have hpmem : p ∈ validPairs candidates to_idx embeddings :=
        List.get?_mem hget
      rw [← hpc]
      exact (mem_validPairs candidates to_idx embeddings p hpmem).1

/-- C8: re-ranking a candidate pool drops members missing from the embedding
  index (no entry in the text-to-index table, or an index past the end of
  the embedding list); every ranked answer comes from the pool; and when no
  member survives, the original pool truncated to the first `top_k`
  elements is returned instead of an empty list. -/
theorem C8_filter_degrades (candidates : List String)
    (to_idx : String → Option ℕ) (embeddings : List (List ℚ))
    (topic_emb : List ℚ) (top_k : ℕ) :
    ((∀ c ∈ candidates, ∀ i, to_idx c = some i → embeddings.length ≤ i) →
      filter_by_similarity candidates to_idx embeddings topic_emb top_k
        = candidates.take top_k) ∧
    (∀ c ∈ filter_by_similarity candidates to_idx embeddings topic_emb top_k,
      c ∈ candidates) ∧
    ((∃ c ∈ candidates, ∃ i, to_idx c = some i ∧ i < embeddings.length) →
      ∀ c ∈ filter_by_similarity candidates to_idx embeddings topic_emb top_k,
        ∃ i, to_idx c = some i ∧ i < embeddings.length) := by
  refine ⟨?_, filter_by_similarity_subset candidates to_idx embeddings topic_emb top_k, ?_⟩
  · intro hnone
    rw [filter_by_similarity]
    split
    · rename_i hce
      rw [List.isEmpty_iff.mp hce, List.take_nil]
    · rw [if_pos (by
        rw [List.isEmpty_iff]
        exact validPairs_eq_nil candidates to_idx embeddings hnone)]
  · rintro ⟨c0, hc0, i0, hti0, hlen0⟩ c hc
    rw [filter_by_similarity] at hc
    split at hc
    · cases hc
    · rw [if_neg (by
        rw [List.isEmpty_iff]
        exact validPairs_ne_nil candidates to_idx embeddings c0 i0 hc0 hti0 hlen0)] at hc
      rw [List.mem_filterMap] at hc
      rcases hc with ⟨i, _, hfi⟩
      rcases Option.map_eq_some'.mp hfi with ⟨p, hget, hpc⟩
      have hpmem : p ∈ validPairs candidates to_idx embeddings :=
        List.get?_mem hget
      rw [← hpc]
      exact (mem_validPairs candidates to_idx embeddings p hpmem).2

theorem C8_filter_degrades_witness :
    filter_by_similarity ["a", "b"] (fun _ => none) [] [1] 1 = ["a", "b"].take 1 :=
  (C8_filter_degrades ["a", "b"] (fun _ => none) [] [1] 1).1
    (by intro c hc i hti; cases hti)

theorem cross_inner_length {α β γ : Type} (hd : α) (vs : List β) (ss : List γ) :
    (vs.flatMap (fun v => ss.map (fun s => (hd, v, s)))).length
      = vs.length * ss.length := by
  induction vs with
  | nil => simp
  | cons vh vt ihv =>
    rw [List.flatMap_cons, List.length_append, List.length_map, ihv,
      List.length_cons]
    ring

theorem cross_length {α β γ : Type} (ps : List α) (vs : List β) (ss : List γ) :
    (ps.flatMap (fun p => vs.flatMap (fun v => ss.map (fun s => (p, v, s))))).length
      = ps.length * vs.length * ss.length := by
  induction ps with
  | nil => simp
  | cons hd tl ih =>
    rw [List.flatMap_cons, List.length_append, ih, cross_inner_length,
      List.length_cons]
    ring

theorem mem_cross {α β γ : Type} (ps : List α) (vs : List β) (ss : List γ)
    (p : α) (v : β) (s : γ) :
    ((p, v, s) ∈ ps.flatMap (fun p => vs.flatMap (fun v => ss.map (fun s => (p, v, s)))))
      ↔ (p ∈ ps ∧ v ∈ vs ∧ s ∈ ss) := by
  constructor
  · intro h
    rcases List.mem_flatMap.mp h with ⟨p0, hp0, hin⟩
    rcases List.mem_flatMap.mp hin with ⟨v0, hv0, hmap⟩
    rcases List.mem_map.mp hmap with ⟨s0, hs0, heq⟩
    rcases Prod.mk.injEq .. |>.mp heq with ⟨hpp, hrest⟩
    rcases Prod.mk.injEq .. |>.mp hrest with ⟨hvv, hss⟩
    subst hpp
    subst hvv
    subst hss
    exact ⟨hp0, hv0, hs0⟩
  · rintro ⟨hp, hv, hs⟩
    exact List.mem_flatMap.mpr ⟨p, hp,
      List.mem_flatMap.mpr ⟨v, hv, List.mem_map.mpr ⟨s, hs, rfl⟩⟩⟩

theorem retrieve_eq_of_nonempty (place_embed : List (List ℚ))
    (idx_to_place : ℕ → String) (g_place_verb g_place_scene : String → List String)
    (verb_to_idx : String → Option ℕ) (verb_embed : List (List ℚ))
    (scenario_to_idx : String → Option ℕ) (scenario_embed : List (List ℚ))
    (topic_emb : List ℚ) (kP kV kS : ℕ) (hpe : ¬ place_embed.isEmpty = true) :
    retrieve place_embed idx_to_place g_place_verb g_place_scene verb_to_idx
      verb_embed scenario_to_idx scenario_embed topic_emb kP kV kS =
    RetrieveResult.mk
      ((topK place_embed topic_emb kP).map idx_to_place)
      (filter_by_similarity
        ((((topK place_embed topic_emb kP).map idx_to_place).flatMap g_place_verb).dedup)
        verb_to_idx verb_embed topic_emb kV)
      (filter_by_similarity
        ((((topK place_embed topic_emb kP).map idx_to_place).flatMap g_place_scene).dedup)
        scenario_to_idx scenario_embed topic_emb kS)
      (((topK place_embed topic_emb kP).map idx_to_place).flatMap (fun p =>
        (filter_by_similarity
          ((((topK place_embed topic_emb kP).map idx_to_place).flatMap g_place_verb).dedup)
          verb_to_idx verb_embed topic_emb kV).flatMap (fun v =>
          (filter_by_similarity
            ((((topK place_embed topic_emb kP).map idx_to_place).flatMap g_place_scene).dedup)
            scenario_to_idx scenario_embed topic_emb kS).map (fun s => (p, v, s))))) := by
  unfold retrieve
  rw [if_neg hpe]

/-- C7: the candidate set emitted by `retrieve` is exactly the cross-product
  of its three shortlists — its size is the product of the shortlist sizes,
  a triple belongs to it iff each component belongs to the respective
  shortlist, and it is empty whenever a shortlist is empty; moreover every
  verb (resp. scenario) in the shortlists is a graph neighbor of SOME
  selected place (the pools are unioned across all selected places), so a
  combination may pair a place with another selected place's neighbor. -/
theorem C7_cross_product (place_embed : List (List ℚ)) (idx_to_place : ℕ → String)
    (g_place_verb g_place_scene : String → List String)
    (verb_to_idx : String → Option ℕ) (verb_embed : List (List ℚ))
    (scenario_to_idx : String → Option ℕ) (scenario_embed : List (List ℚ))
    (topic_emb : List ℚ) (kP kV kS : ℕ) :
    ((retrieve place_embed idx_to_place g_place_verb g_place_scene verb_to_idx
        verb_embed scenario_to_idx scenario_embed topic_emb kP kV kS).combinations.length =
      (retrieve place_embed idx_to_place g_place_verb g_place_scene verb_to_idx
        verb_embed scenario_to_idx scenario_embed topic_emb kP kV kS).places.length *
      (retrieve place_embed idx_to_place g_place_verb g_place_scene verb_to_idx
        verb_embed scenario_to_idx scenario_embed topic_emb kP kV kS).verbs.length *
      (retrieve place_embed idx_to_place g_place_verb g_place_scene verb_to_idx
        verb_embed scenario_to_idx scenario_embed topic_emb kP kV kS).scenarios.length) ∧
    (∀ p v s, ((p, v, s) ∈ (retrieve place_embed idx_to_place g_place_verb
        g_place_scene verb_to_idx verb_embed scenario_to_idx scenario_embed
        topic_emb kP kV kS).combinations) ↔
      (p ∈ (retrieve place_embed idx_to_place g_place_verb g_place_scene
        verb_to_idx verb_embed scenario_to_idx scenario_embed topic_emb
        kP kV kS).places ∧
       v ∈ (retrieve place_embed idx_to_place g_place_verb g_place_scene
        verb_to_idx verb_embed scenario_to_idx scenario_embed topic_emb
        kP kV kS).verbs ∧
       s ∈ (retrieve place_embed idx_to_place g_place_verb g_place_scene
        verb_to_idx verb_embed scenario_to_idx scenario_embed topic_emb
        kP kV kS).scenarios)) ∧
    (((retrieve place_embed idx_to_place g_place_verb g_place_scene verb_to_idx
        verb_embed scenario_to_idx scenario_embed topic_emb kP kV kS).places = [] ∨
      (retrieve place_embed idx_to_place g_place_verb g_place_scene verb_to_idx
        verb_embed scenario_to_idx scenario_embed topic_emb kP kV kS).verbs = [] ∨
      (retrieve place_embed idx_to_place g_place_verb g_place_scene verb_to_idx
        verb_embed scenario_to_idx scenario_embed topic_emb kP kV kS).scenarios = []) →
      (retrieve place_embed idx_to_place g_place_verb g_place_scene verb_to_idx
        verb_embed scenario_to_idx scenario_embed topic_emb kP kV kS).combinations = []) ∧
    (∀ v ∈ (retrieve place_embed idx_to_place g_place_verb g_place_scene
        verb_to_idx verb_embed scenario_to_idx scenario_embed topic_emb
        kP kV kS).verbs, ∃ p ∈ (retrieve place_embed idx_to_place g_place_verb
        g_place_scene verb_to_idx verb_embed scenario_to_idx scenario_embed
        topic_emb kP kV kS).places, v ∈ g_place_verb p) ∧
    (∀ s ∈ (retrieve place_embed idx_to_place g_place_verb g_place_scene
        verb_to_idx verb_embed scenario_to_idx scenario_embed topic_emb
        kP kV kS).scenarios, ∃ p ∈ (retrieve place_embed idx_to_place g_place_verb
        g_place_scene verb_to_idx verb_embed scenario_to_idx scenario_embed
        topic_emb kP kV kS).places, s ∈ g_place_scene p) := by
  by_cases hpe : place_embed.isEmpty
  · have hre : retrieve place_embed idx_to_place g_place_verb g_place_scene
        verb_to_idx verb_embed scenario_to_idx scenario_embed topic_emb kP kV kS
        = RetrieveResult.mk [] [] [] [] := by
      unfold retrieve
      rw [if_pos hpe]
    rw [hre]
    refine ⟨rfl, ?_, fun _ => rfl, ?_, ?_⟩
    · intro p v s
      constructor
      · intro h
        cases h
      · rintro ⟨h, _, _⟩
        cases h
    · intro v hv
      cases hv
    · intro s hs
      cases hs
  · rw [retrieve_eq_of_nonempty place_embed idx_to_place g_place_verb
      g_place_scene verb_to_idx verb_embed scenario_to_idx scenario_embed
      topic_emb kP kV kS hpe]
    refine ⟨cross_length _ _ _, ?_, ?_, ?_, ?_⟩
    · intro p v s
      exact mem_cross _ _ _ p v s
    · intro hempty
      apply List.eq_nil_of_length_eq_zero
      rw [cross_length]
      dsimp only at hempty
      rcases hempty with h | h | h <;> rw [h] <;> simp
    · intro v hv
      have hvc := filter_by_similarity_subset _ verb_to_idx verb_embed
        topic_emb kV v hv
      rw [List.mem_dedup, List.mem_flatMap] at hvc
      exact hvc
    · intro s hs
      have hsc := filter_by_similarity_subset _ scenario_to_idx scenario_embed
        topic_emb kS s hs
      rw [List.mem_dedup, List.mem_flatMap] at hsc
      exact hsc

theorem C7_cross_product_witness :
    (retrieve [] (fun _ => "") (fun _ => []) (fun _ => [])
      (fun _ => none) [] (fun _ => none) [] [] 1 1 1).combinations = [] :=
  (C7_cross_product [] (fun _ => "") (fun _ => []) (fun _ => [])
    (fun _ => none) [] (fun _ => none) [] [] 1 1 1).2.2.1 (Or.inl rfl)
